import Mathlib

/-!
Verification of the Meteo-Chat MCP server core against its specification.

The TypeScript sources are shallowly embedded: JavaScript numbers that the
code only ever combines with exact arithmetic are modelled as rationals,
non-finite values get an explicit constructor, epoch instants are integers
(milliseconds), and the stateful helpers (capability registry, cache, rate
limiter) are modelled as explicit state-passing functions with the current
clock value passed in.
-/

namespace Meteo

/-! ### JavaScript values

A JavaScript number is either a finite value (modelled as a rational) or one
of the non-finite values NaN, Infinity, -Infinity.  This is the argument type
of the aggregator, whose rows come from parsed upstream JSON.
-/

/-- A JavaScript number: finite (rational) or one of the non-finite values. -/
inductive JVal where
  | num (q : ℚ)
  | nan
  | inf
  | ninf
deriving DecidableEq, Repr

/-- Mirrors Number.isFinite. -/
def JVal.isFinite : JVal → Bool
  | .num _ => true
  | _ => false

/-- Result type of the quantile primitive.  The source returns a JavaScript
number (possibly NaN); the constructor for null exists so the specification
sentence that promises null can be stated and compared against the code. -/
inductive JRes where
  | num (q : ℚ)
  | nan
  | null
deriving DecidableEq, Repr

/-- The finite values of a list, in order: mirrors
arr.filter((x) => Number.isFinite(x)) from aggregator quantile. -/
def finiteVals (arr : List JVal) : List ℚ :=
  arr.filterMap (fun v => match v with | .num q => some q | _ => none)

/-- Insert into a sorted list (ascending). -/
def sortIns (x : ℚ) : List ℚ → List ℚ
  | [] => [x]
  | y :: ys => if x ≤ y then x :: y :: ys else y :: sortIns x ys

/-- Ascending numeric sort: mirrors .sort((x, y) => x - y) on an array of
finite numbers (the comparator induces the usual total order on rationals;
stability is value-irrelevant here). -/
def sortAsc (l : List ℚ) : List ℚ := l.foldr sortIns []

/-- Embedding of quantile from aggregator.ts (part_003 lines 168-175):

  const a = arr.filter((x) => Number.isFinite(x)).sort((x, y) => x - y);
  if (!a.length) return NaN;
  const i = (a.length - 1) * p;
  const b = Math.floor(i);
  const f = i - b;
  return a[b] + ((a[b + 1] - a[b]) || 0) * f;

Out-of-range index access a[k] yields undefined, and arithmetic on undefined
yields NaN; the (x || 0) guard maps NaN (from an undefined a[b+1]) to 0 and
is the identity on every finite difference except 0, which it also maps to 0
(the same value).  Hence: if a[b] is out of range the result is NaN, and the
a[b+1] term contributes (a[b+1] - a[b]) when in range and 0 otherwise. -/
def quantile (arr : List JVal) (p : ℚ) : JRes :=
  let a := sortAsc (finiteVals arr)
  if a.length = 0 then .nan
  else
    let i : ℚ := ((a.length : ℚ) - 1) * p
    let b : ℤ := ⌊i⌋
    let f : ℚ := i - b
    if h : 0 ≤ b ∧ b.toNat < a.length then
      let sb := a.get ⟨b.toNat, h.2⟩
      let d : ℚ :=
        match a.get? (b.toNat + 1) with
        | some s1 => s1 - sb
        | none => 0
      .num (sb + d * f)
    else .nan

/-- Modelled from the words of the spec, for refinement comparison with the
quantile of the code: sort finite values ascending; for fraction p, index = (n-1)*p,
linear-interpolate between floor and ceiling order statistics; empty or
all-non-finite input yields null (here: none). -/
def specQuantile (arr : List JVal) (p : ℚ) : Option ℚ :=
  let a := sortAsc (finiteVals arr)
  if a.length = 0 then none
  else
    let i : ℚ := ((a.length : ℚ) - 1) * p
    let lo := (a.get? (⌊i⌋).toNat).getD 0
    let hi := (a.get? (⌈i⌉).toNat).getD 0
    some (lo + (hi - lo) * (i - ⌊i⌋))

/-! ### Sampler: adaptiveGrid (part_003 lines 177-189) -/

/-- A bounding box as destructured by adaptiveGrid:
[minLat, minLon, maxLat, maxLon], i.e. [south, west, north, east]. -/
structure BBox where
  minLat : ℚ
  minLon : ℚ
  maxLat : ℚ
  maxLon : ℚ
deriving DecidableEq, Repr

/-- Mirrors Number.prototype.toFixed(3) followed by unary + (re-parse):
round to the nearest multiple of 1/1000, ties away from zero (the toFixed
specification drops the sign first and on a tie picks the larger digit
string). -/
def toFixed3 (q : ℚ) : ℚ :=
  ((if q < 0 then -⌊-q * 1000 + 1/2⌋ else ⌊q * 1000 + 1/2⌋ : ℤ) : ℚ) / 1000

/-- The step chosen by adaptiveGrid from the flat-Earth area estimate:
areaKm2 = |dLat| * |dLon| * 111 * 111; 2.0 if areaKm2 > 2e6, 1.0 if
areaKm2 > 5e4, else 0.5. -/
def gridStep (b : BBox) : ℚ :=
  let areaKm2 := |b.maxLat - b.minLat| * |b.maxLon - b.minLon| * 111 * 111
  if areaKm2 > 2000000 then 2 else if areaKm2 > 50000 then 1 else 1/2

/-- Number of iterations of the inclusive loop
for (x = lo; x <= hi; x += step) in exact arithmetic: the values visited are
lo + k * step for every natural k with lo + k * step <= hi, i.e.
k <= (hi - lo) / step, so the loop runs floor((hi - lo) / step) + 1 times
when hi >= lo and 0 times otherwise (step > 0 throughout). -/
def axisCount (lo hi step : ℚ) : ℕ :=
  if hi < lo then 0 else (⌊(hi - lo) / step⌋).toNat + 1

/-- Embedding of adaptiveGrid: walk latitude from minLat to maxLat (outer,
inclusive) and longitude from minLon to maxLon (inner, inclusive) in steps of
gridStep, push each point with both coordinates rounded via toFixed3, and
keep only the first 150 points (guardrail). -/
def adaptiveGrid (b : BBox) : List (ℚ × ℚ) :=
  let step := gridStep b
  (((List.range (axisCount b.minLat b.maxLat step)).flatMap fun li : ℕ =>
    (List.range (axisCount b.minLon b.maxLon step)).map fun lj : ℕ =>
      (toFixed3 (b.minLat + (li : ℚ) * step), toFixed3 (b.minLon + (lj : ℚ) * step))).take 150)

/-! ### Aggregator: the diurnal block of climateBlocks (part_003 lines 231-244)

Timestamps are epoch milliseconds (the value of new Date(s).getTime()).
Date.prototype.getHours returns the hour in the host time zone, i.e. the
hour-of-day of the instant shifted by the host UTC offset; the embedding
makes that host offset an explicit parameter (in seconds, 0 for a host
running in UTC).
-/

/-- Hour-of-day (0..23) of an epoch-millisecond instant read on a UTC clock. -/
def hourOfMs (ms : ℤ) : ℤ :=
  (ms.ediv 3600000).emod 24

/-- Append value v to bucket h of a 24-bucket accumulator
(byHourLocal[h].push(v)). -/
def bucketPush (bs : List (List ℚ)) (h : ℕ) (v : ℚ) : List (List ℚ) :=
  bs.set h ((bs.getD h []) ++ [v])

/-- The contribution of one row to the diurnal buckets: for each timestep t with a
finite value v, compute
  ts = new Date(new Date(timesUTC[t]).getTime() + off * 1000)
  h  = ts.getHours()
which is the hour of the instant timesUTC[t] + off*1000 as read on the host
clock, i.e. hourOfMs of that instant further shifted by the host UTC offset,
and push v into bucket h. -/
def addRowLocal (hostOffSec off : ℤ) (pairs : List (ℤ × JVal)) (bs : List (List ℚ)) :
    List (List ℚ) :=
  pairs.foldl (fun bs pr =>
    match pr.2 with
    | .num q => bucketPush bs (hourOfMs (pr.1 + off * 1000 + hostOffSec * 1000)).toNat q
    | _ => bs) bs

/-- Embedding of the byHourLocal accumulation in climateBlocks (the diurnal
block): per row i, off = utcOffsetsSec[i] || 0 (missing entries read as 0),
and the inner loop runs over t < timesUTC.length, skipping values that are
not finite (zipping truncates exactly as the undefined reads would skip). -/
def byHourLocal (timesUTC : List ℤ) (rows : List (List JVal))
    (utcOffsetsSec : List ℤ) (hostOffSec : ℤ) : List (List ℚ) :=
  rows.enum.foldl (fun bs irow =>
    addRowLocal hostOffSec (utcOffsetsSec.getD irow.1 0) (timesUTC.zip irow.2) bs)
    (List.replicate 24 [])

/-! ### Planner (src/mcp_server/src/planner.ts) -/

/-- Supported time modes of the planner and capability catalog. -/
inductive TimeMode where
  | current
  | forecast
  | historical
  | climate
deriving DecidableEq, Repr

/-- A capability catalog entry (capabilities.ts CapabilityVariable). -/
structure CapabilityVariable where
  id : String
  label : String
  unit : Option String
  time_modes : List TimeMode
  aliases : List String
deriving DecidableEq, Repr

/-- ASCII lower-casing of one character (String.prototype.toLowerCase on the
ASCII catalog and request strings used here). -/
def lowerChar (c : Char) : Char :=
  if 'A' ≤ c ∧ c ≤ 'Z' then Char.ofNat (c.toNat + 32) else c

/-- JavaScript word characters, the complement of the split regex \W+. -/
def isWordChar (c : Char) : Bool :=
  c.isAlphanum || c = '_'

/-- Split a lower-cased character list on runs of non-word characters,
keeping only nonempty tokens: mirrors .split(/\W+/).filter(Boolean).
The first accumulator argument is the current token, reversed. -/
def splitTokensAux : List Char → List Char → List (List Char)
  | [], cur => if cur.isEmpty then [] else [cur.reverse]
  | c :: cs, cur =>
    if isWordChar c then splitTokensAux cs (c :: cur)
    else if cur.isEmpty then splitTokensAux cs []
    else cur.reverse :: splitTokensAux cs []

/-- Token set of a phrase: lower-case, split on non-word characters, drop
empty tokens, de-duplicate (new Set(...)).  Only the member set matters for
scoring, so the de-duplication order is irrelevant. -/
def tokenSet (s : String) : List (List Char) :=
  (splitTokensAux (s.data.map lowerChar) []).dedup

/-- Embedding of score from planner.ts: overlap ratio
|A ∩ B| / max(1, max(|A|, |B|)) on the two token sets. -/
def score (a b : String) : ℚ :=
  let A := tokenSet a
  let B := tokenSet b
  ((A.filter (fun t => t ∈ B)).length : ℚ) / (max 1 (max A.length B.length) : ℕ)

/-- The maximum score of a request phrase against one catalog entry:
Math.max(score(req, v.id), score(req, v.label), ...aliases.map(score)). -/
def entryScore (req : String) (v : CapabilityVariable) : ℚ :=
  (v.aliases.map (score req)).foldl max (max (score req v.id) (score req v.label))

/-- The fold in planQuery that tracks (best, bestScore), initialised to
(null, 0) and replacing only on a strictly larger score, so ties resolve to
the earlier catalog entry. -/
def bestEntry (req : String) (vars : List CapabilityVariable) :
    Option CapabilityVariable × ℚ :=
  vars.foldl (fun acc v =>
    let s := entryScore req v
    if acc.2 < s then (some v, s) else acc) (none, 0)

/-- A plan item: either resolved to a canonical id or unresolved with the
fixed fallback-provider suggestion list (provider, capability_tag pairs). -/
inductive PlanItem where
  | resolved (requested canonical : String) (unit : Option String)
      (provider : String) (tm : TimeMode)
  | unresolved (requested : String) (tm : TimeMode)
      (fallback : List (String × String))
deriving DecidableEq, Repr

/-- The fixed fallback candidate list from planQuery, in source order. -/
def fallbackCandidates : List (String × String) :=
  [("meteostat", "station-met"),
   ("climateserv", "precip-land-only"),
   ("nasa-power", "radiation"),
   ("openaq", "air-quality"),
   ("nsidc", "sea-ice")]

/-- Embedding of one iteration of the items map in planQuery: accept the
best entry iff best is non-null and bestScore >= 0.33. -/
def planItem (chosenMode : TimeMode) (vars : List CapabilityVariable)
    (req : String) : PlanItem :=
  match bestEntry req vars with
  | (some v, s) =>
    if 33/100 ≤ s then .resolved req v.id v.unit "open-meteo" chosenMode
    else .unresolved req chosenMode fallbackCandidates
  | (none, _) => .unresolved req chosenMode fallbackCandidates

/-- variables.join(" ") as a character list. -/
def joinSpace : List String → List Char
  | [] => []
  | [v] => v.data
  | v :: rest => v.data ++ ' ' :: joinSpace rest

/-- The lower-cased, space-joined concatenation of the requested phrases. -/
def joinedLower (vs : List String) : List Char :=
  (joinSpace vs).map lowerChar

/-- Substring containment on character lists (String.prototype.includes). -/
def containsSub (hay pat : List Char) : Bool :=
  hay.tails.any (fun t => pat.isPrefixOf t)

/-- CLIMATE_HINTS from planner.ts. -/
def CLIMATE_HINTS : List (List Char) :=
  ["typical".data, "climatology".data, "normal".data, "long-term".data]

/-- wantsClimate: some hint occurs in the joined lower-cased phrase list. -/
def wantsClimate (vs : List String) : Bool :=
  CLIMATE_HINTS.any (containsSub (joinedLower vs))

/-- The effective time mode of the plan: historical when a climate hint is
present, else the caller-requested mode. -/
def chosenMode (vs : List String) (time_mode : TimeMode) : TimeMode :=
  if wantsClimate vs then .historical else time_mode

/-! ### Planner: historical window (planner.ts lines 92-113,
computeHistoricalWindow in utils.ts lines 85-91)

Dates are modelled as UTC calendar dates.  setUTCFullYear keeps the month
and day-of-month fields and renormalises: the only overflow reachable from a
valid date is Feb 29 of a leap year mapped into a non-leap year, which
JavaScript Date normalises to Mar 1.
-/

/-- A UTC calendar date: year, month (1-12), day (1-31). -/
structure CivilDate where
  y : ℤ
  m : ℕ
  d : ℕ
deriving DecidableEq, Repr

/-- Gregorian leap year. -/
def isLeap (y : ℤ) : Bool :=
  y % 4 = 0 && (y % 100 ≠ 0 || y % 400 = 0)

/-- Days in a month of a given year (months 1-12). -/
def daysInMonth (y : ℤ) (m : ℕ) : ℕ :=
  if m = 2 then (if isLeap y then 29 else 28)
  else if m = 4 ∨ m = 6 ∨ m = 9 ∨ m = 11 then 30
  else 31

/-- A structurally valid calendar date. -/
def ValidDate (dt : CivilDate) : Prop :=
  1 ≤ dt.m ∧ dt.m ≤ 12 ∧ 1 ≤ dt.d ∧ dt.d ≤ daysInMonth dt.y dt.m

instance : DecidablePred ValidDate := fun dt => by
  unfold ValidDate
  infer_instance

/-- Date.prototype.setUTCFullYear(y) on a valid date: keep month and day and
renormalise the single reachable overflow (day past the end of the month
rolls into the next month, i.e. Feb 29 -> Mar 1 in a non-leap year). -/
def setUTCFullYear (y : ℤ) (dt : CivilDate) : CivilDate :=
  if dt.d ≤ daysInMonth y dt.m then ⟨y, dt.m, dt.d⟩
  else ⟨y, dt.m + 1, dt.d - daysInMonth y dt.m⟩

/-- The derived historical window (start/end as UTC calendar dates). -/
structure HistoricalWindow where
  start : CivilDate
  stop : CivilDate
  years : ℕ
deriving DecidableEq, Repr

/-- Embedding of the window computation shared by planner.ts lines 105-112
and computeHistoricalWindow: end = today (UTC), start = the same instant
with the UTC year field reduced by years. -/
def computeHistoricalWindow (years : ℕ) (today : CivilDate) : HistoricalWindow :=
  ⟨setUTCFullYear (today.y - years) today, today, years⟩

/-- Historical depth option. -/
inductive Depth where
  | normalDepth
  | deep
deriving DecidableEq, Repr

/-- The options object accepted by planQuery (both fields optional). -/
structure PlanOptions where
  historical_depth : Option Depth
  historical_years : Option ℕ
deriving DecidableEq, Repr

/-- years = options?.historical_years ?? (options?.historical_depth ===
"deep" ? 10 : 1). -/
def yearsOf (options : Option PlanOptions) : ℕ :=
  match options with
  | some o => o.historical_years.getD (if o.historical_depth = some .deep then 10 else 1)
  | none => 1

/-- plan.meta.historical_window: attached iff the chosen mode is
historical. -/
def planMeta (mode : TimeMode) (options : Option PlanOptions) (today : CivilDate) :
    Option HistoricalWindow :=
  if mode = .historical then some (computeHistoricalWindow (yearsOf options) today)
  else none

/-! ### CapabilityRegistry (capabilities.ts, part_001 lines 106-156 and
171-462)

Timestamps (last_updated, expiry instants, Date.now()) are epoch
milliseconds.  The seed descriptor is a module-level constant whose
last_updated field is the module load instant, passed in as loadTime.  The
outcome of the upstream probe is a boolean parameter: refreshFromOpenMeteo
catches every failure and returns the seed, so it is a total function.
-/

/-- A capability snapshot (provider tag fixed to open-meteo); vars is the
variables field of the source type (renamed: variable is reserved). -/
structure Capabilities where
  last_updated : ℤ
  vars : List CapabilityVariable
deriving DecidableEq, Repr

/-- The seed catalog of the first capabilities.ts variant
(part_001 lines 124-135), transcribed verbatim. -/
def seedVariables : List CapabilityVariable :=
  [⟨"temperature_2m", "2 m air temperature", some "°C",
    [.historical, .current, .forecast], ["temperature", "air temp", "t2m"]⟩,
   ⟨"relative_humidity_2m", "2 m relative humidity", some "%",
    [.historical, .current, .forecast], ["humidity", "rh"]⟩,
   ⟨"windspeed_10m", "10 m wind speed", some "m/s",
    [.historical, .current, .forecast], ["wind", "winds", "wind speed"]⟩,
   ⟨"windgusts_10m", "10 m wind gusts", some "m/s",
    [.current, .forecast], ["gust", "gusts", "wind gusts"]⟩,
   ⟨"cloudcover", "Total cloud cover", some "%",
    [.historical, .current, .forecast], ["clouds", "cloud cover"]⟩,
   ⟨"precipitation", "Precipitation", some "mm",
    [.historical, .current, .forecast], ["rain", "rainfall", "precip"]⟩]

/-- The module-level seed snapshot: last_updated is the module load
instant. -/
def seed (loadTime : ℤ) : Capabilities :=
  ⟨loadTime, seedVariables⟩

/-- 24 hours in milliseconds. -/
def DAY : ℤ := 24 * 60 * 60 * 1000

/-- Embedding of refreshFromOpenMeteo: on a successful probe return the
seed with last_updated refreshed to now; on any failure (caught) return the
seed unchanged. -/
def refreshFromOpenMeteo (loadTime now : ℤ) (probeOk : Bool) : Capabilities :=
  if probeOk then { seed loadTime with last_updated := now }
  else seed loadTime

/-- Embedding of describeCapabilities: return the cached snapshot while
now < expires, else refresh (total: failures are swallowed inside
refreshFromOpenMeteo) and re-cache the result for a further DAY.  The state
is memCache: none when cold, else the snapshot and its expiry instant.
Returns the snapshot and the new state. -/
def describeCapabilities (loadTime : ℤ) (st : Option (Capabilities × ℤ))
    (now : ℤ) (probeOk : Bool) : Capabilities × Option (Capabilities × ℤ) :=
  match st with
  | some mc =>
    if now < mc.2 then (mc.1, st)
    else
      let fresh := refreshFromOpenMeteo loadTime now probeOk
      (fresh, some (fresh, now + DAY))
  | none =>
    let fresh := refreshFromOpenMeteo loadTime now probeOk
    (fresh, some (fresh, now + DAY))

/-! ### CacheAndLimiter (utils.ts, part_001 lines 8-82)

MemoryCache is a string-keyed map to (value, absolute expiry); the Map is
modelled as an association list with at most one binding per key (set
replaces).  Every operation receives the current Date.now() value
explicitly.  Reads are lazily evicting: get and has delete an expired entry.
The rate limiter tracks the last-call instant per throttle key; wait
suspends for max(0, minGap - (now - last)) and then stores the
post-suspension instant.  fetchJSONWithCache composes them; the upstream
response is passed in as (status, body) and the call itself is modelled as
instantaneous (zero latency), so the instant after a suspended call is
now + wait.
-/

/-- A cache entry: value and absolute expiry instant. -/
structure CacheEntry (α : Type) where
  v : α
  exp : ℤ
deriving DecidableEq, Repr

/-- MemoryCache state. -/
structure MemoryCache (α : Type) where
  store : List (String × CacheEntry α)
  defaultTTLms : ℤ
deriving DecidableEq, Repr

/-- Remove the binding of key k (Map.delete / replacement on set). -/
def mcErase {α : Type} (c : MemoryCache α) (k : String) : MemoryCache α :=
  { c with store := c.store.filter (fun e => e.1 ≠ k) }

/-- MemoryCache.get at instant now: absent, or expired (delete and report
absent, since Date.now() > exp), or the live value. -/
def mcGet {α : Type} (now : ℤ) (c : MemoryCache α) (k : String) :
    Option α × MemoryCache α :=
  match c.store.find? (fun e => e.1 = k) with
  | none => (none, c)
  | some e => if now > e.2.exp then (none, mcErase c k) else (some e.2.v, c)

/-- MemoryCache.has at instant now, with the same lazy eviction. -/
def mcHas {α : Type} (now : ℤ) (c : MemoryCache α) (k : String) :
    Bool × MemoryCache α :=
  match c.store.find? (fun e => e.1 = k) with
  | none => (false, c)
  | some e => if now > e.2.exp then (false, mcErase c k) else (true, c)

/-- MemoryCache.set at instant now: bind k to (v, now + ttl). -/
def mcSet {α : Type} (now : ℤ) (c : MemoryCache α) (k : String) (v : α)
    (ttlMs : ℤ) : MemoryCache α :=
  { c with store := (k, ⟨v, now + ttlMs⟩) :: (mcErase c k).store }

/-- RateLimiter state: minimum gap and last-call instant per key. -/
structure RateLimiter where
  minGapMs : ℤ
  lastByKey : List (String × ℤ)
deriving DecidableEq, Repr

/-- RateLimiter.wait at instant now: suspend for
max(0, minGap - (now - last)) where last defaults to 0, then record the
post-suspension instant for the key.  Returns that instant and the new
state. -/
def rlWait (now : ℤ) (rl : RateLimiter) (key : String) : ℤ × RateLimiter :=
  let last := (rl.lastByKey.lookup key).getD 0
  let gap := now - last
  let w := max 0 (rl.minGapMs - gap)
  let now1 := now + w
  (now1, { rl with lastByKey := (key, now1) :: rl.lastByKey.filter (fun e => e.1 ≠ key) })

/-- The observable outcome of one fetchJSONWithCache call: the returned
JSON (ok, possibly none for a pathological undefined read, mirroring the
untyped return of cache.get) or the thrown fetch_failed error carrying
status and url; the global cache after the call; the rate limiter after the
call; the instant at which the call returns; and whether an upstream
request was issued. -/
structure FetchOutcome (α : Type) where
  res : Except (ℕ × String) (Option α)
  cache : Option (MemoryCache α)
  rl : RateLimiter
  now : ℤ
  didCall : Bool
deriving Repr

/-- Embedding of fetchJSONWithCache (part_001 lines 62-82).
key = "json:" + url; the process-global cache is created with default ttlMs
on first use; a live hit returns the cached value at once, touching neither
the limiter nor the clock; otherwise, when a limiter was supplied, wait on
it, then issue the upstream call: status >= 400 throws without caching,
success stores the body under the given ttl and returns it. -/
def fetchJSONWithCache {α : Type} (url : String) (ttlMs : ℤ) (useRL : Bool)
    (rlKey : String) (g : Option (MemoryCache α)) (rl : RateLimiter) (now : ℤ)
    (status : ℕ) (body : α) : FetchOutcome α :=
  let key := "json:" ++ url
  let cache := match g with
    | some c => c
    | none => ⟨[], ttlMs⟩
  match mcHas now cache key with
  | (true, c1) =>
    let got := mcGet now c1 key
    ⟨.ok got.1, some got.2, rl, now, false⟩
  | (false, c1) =>
    let stepRL := if useRL then rlWait now rl rlKey else (now, rl)
    if status ≥ 400 then ⟨.error (status, url), some c1, stepRL.2, stepRL.1, true⟩
    else ⟨.ok (some body), some (mcSet stepRL.1 c1 key body ttlMs), stepRL.2, stepRL.1, true⟩

/-- Helper predicate for the planner proofs: no token of req occurs in any
scoring axis (id, label, aliases) of the entry v. -/
def noOverlap (req : String) (v : CapabilityVariable) : Bool :=
  (v.id :: v.label :: v.aliases).all
    (fun b => ((tokenSet req).filter (fun t => t ∈ tokenSet b)).isEmpty)

set_option maxRecDepth 10000

/-! ## Helper lemmas -/

theorem quantile_eq_specQuantile (arr : List JVal) (p : ℚ) (hp0 : 0 ≤ p)
    (hp1 : p ≤ 1) :
    quantile arr p = (specQuantile arr p).elim JRes.nan JRes.num := by
  unfold quantile specQuantile
  set a := sortAsc (finiteVals arr) with ha
  by_cases h0 : a.length = 0
  · simp [h0]
  · have hn : 1 ≤ a.length := Nat.one_le_iff_ne_zero.mpr h0
    simp only [h0, if_false, Option.elim_some]
    set i : ℚ := ((a.length : ℚ) - 1) * p with hidef
    have hone : (1 : ℚ) ≤ (a.length : ℚ) := by exact_mod_cast hn
    have hi0 : 0 ≤ i := mul_nonneg (by linarith) hp0
    have hile : i ≤ (a.length : ℚ) - 1 := by
      calc ((a.length : ℚ) - 1) * p ≤ ((a.length : ℚ) - 1) * 1 :=
            mul_le_mul_of_nonneg_left hp1 (by linarith)
        _ = (a.length : ℚ) - 1 := mul_one _
    have hcast : ((a.length : ℚ) - 1) = (((a.length : ℤ) - 1 : ℤ) : ℚ) := by push_cast; ring
    have hb0 : 0 ≤ ⌊i⌋ := Int.floor_nonneg.mpr hi0
    have hble : ⌊i⌋ ≤ (a.length : ℤ) - 1 := by
      have := Int.floor_le_floor hile
      rwa [hcast, Int.floor_intCast] at this
    have hblt : ⌊i⌋.toNat < a.length := by omega
    have hcond : 0 ≤ ⌊i⌋ ∧ ⌊i⌋.toNat < a.length := ⟨hb0, hblt⟩
    rw [dif_pos hcond]
    have hgetD : (a.get? ⌊i⌋.toNat).getD 0 = a.get ⟨⌊i⌋.toNat, hblt⟩ := by
      rw [List.get?_eq_get hblt, Option.getD_some]
    by_cases hf : i - (⌊i⌋ : ℚ) = 0
    · have hceil : ⌈i⌉ = ⌊i⌋ := by
        have hieq : i = (⌊i⌋ : ℚ) := by linarith
        rw [hieq, Int.ceil_intCast, Int.floor_intCast]
      rw [hceil, hf, hgetD]
      simp
    · have hfl : (⌊i⌋ : ℚ) < i :=
        lt_of_le_of_ne (Int.floor_le i) (by intro h; exact hf (by linarith))
      have hceil : ⌈i⌉ = ⌊i⌋ + 1 := by
        have h1 : ⌊i⌋ < ⌈i⌉ := Int.lt_ceil.mpr hfl
        have h2 : ⌈i⌉ ≤ ⌊i⌋ + 1 := Int.ceil_le_floor_add_one i
        omega
      have hfloor_lt : ⌊i⌋ < (a.length : ℤ) - 1 := by
        rcases lt_or_eq_of_le hble with h | h
        · exact h
        · exfalso
          have hge : ((a.length : ℚ) - 1) ≤ i := by
            calc ((a.length : ℚ) - 1) = ((⌊i⌋ : ℤ) : ℚ) := by rw [h]; push_cast; ring
              _ ≤ i := Int.floor_le i
          have heq : i = (a.length : ℚ) - 1 := le_antisymm hile hge
          apply hf
          rw [heq, hcast, Int.floor_intCast]
          push_cast
          ring
      have hb1lt : ⌊i⌋.toNat + 1 < a.length := by omega
      have hget1 : a.get? (⌊i⌋.toNat + 1) = some (a.get ⟨⌊i⌋.toNat + 1, hb1lt⟩) :=
        List.get?_eq_get hb1lt
      have hceilNat : (⌈i⌉).toNat = ⌊i⌋.toNat + 1 := by omega
      have hgetD1 : (a.get? (⌈i⌉).toNat).getD 0 = a.get ⟨⌊i⌋.toNat + 1, hb1lt⟩ := by
        rw [hceilNat, List.get?_eq_get hb1lt, Option.getD_some]
      rw [hget1, hgetD, hgetD1]

theorem score_eval (a b : String) (k m : ℕ)
    (hnum : ((tokenSet a).filter (fun t => t ∈ tokenSet b)).length = k)
    (hden : max 1 (max (tokenSet a).length (tokenSet b).length) = m) :
    score a b = (k : ℚ) / (m : ℚ) := by
  simp only [score]
  rw [hnum, hden]

theorem score_eq_zero (a b : String)
    (h : ((tokenSet a).filter (fun t => t ∈ tokenSet b)).isEmpty = true) :
    score a b = 0 := by
  simp only [score]
  rw [List.isEmpty_iff] at h
  rw [h]
  norm_num

theorem score_self (s : String) (h : tokenSet s ≠ []) : score s s = 1 := by
  simp only [score]
  have hfilter : (tokenSet s).filter (fun t => t ∈ tokenSet s) = tokenSet s := by
    apply List.filter_eq_self.mpr
    intro a ha
    exact decide_eq_true ha
  rw [hfilter, max_self]
  have hlen : 0 < (tokenSet s).length := List.length_pos.mpr h
  rw [max_eq_right hlen]
  rw [div_self]
  exact_mod_cast Nat.pos_iff_ne_zero.mp hlen

theorem entryScore_eq_zero (req : String) (v : CapabilityVariable)
    (h : noOverlap req v = true) : entryScore req v = 0 := by
  simp only [noOverlap, List.all_cons, Bool.and_eq_true, List.all_eq_true] at h
  obtain ⟨h1, h2, h3⟩ := h
  simp only [entryScore]
  rw [score_eq_zero _ _ h1, score_eq_zero _ _ h2]
  have hmap : v.aliases.map (score req) = v.aliases.map (fun _ => 0) := by
    apply List.map_congr_left
    intro al hal
    exact score_eq_zero _ _ (h3 al hal)
  rw [hmap, max_self]
  induction v.aliases with
  | nil => rfl
  | cons a l ih => simpa using ih

theorem bestEntry_keep (req : String) (rest : List CapabilityVariable)
    (acc : Option CapabilityVariable × ℚ)
    (h : ∀ v ∈ rest, ¬(acc.2 < entryScore req v)) :
    rest.foldl (fun acc v =>
      let s := entryScore req v
      if acc.2 < s then (some v, s) else acc) acc = acc := by
  induction rest with
  | nil => rfl
  | cons v l ih =>
    simp only [List.foldl_cons]
    rw [if_neg (h v (by simp))]
    exact ih (fun w hw => h w (by simp [hw]))

theorem bestEntry_all_zero (req : String) (vars : List CapabilityVariable)
    (h : vars.all (noOverlap req) = true) :
    bestEntry req vars = (none, 0) := by
  unfold bestEntry
  apply bestEntry_keep
  intro v hv
  rw [List.all_eq_true] at h
  rw [entryScore_eq_zero req v (h v hv)]
  simp

theorem entryScore_temperature :
    entryScore "temperature"
      ⟨"temperature_2m", "2 m air temperature", some "°C",
       [.historical, .current, .forecast], ["temperature", "air temp", "t2m"]⟩ = 1 := by
  have hid : score "temperature" "temperature_2m" = 0 := score_eq_zero _ _ (by decide)
  have hlabel : score "temperature" "2 m air temperature" = 1/4 := by
    rw [score_eval _ _ 1 4 (by decide) (by decide)]
    norm_num
  have ha1 : score "temperature" "temperature" = 1 := by
    rw [score_eval _ _ 1 1 (by decide) (by decide)]
    norm_num
  have ha2 : score "temperature" "air temp" = 0 := score_eq_zero _ _ (by decide)
  have ha3 : score "temperature" "t2m" = 0 := score_eq_zero _ _ (by decide)
  simp only [entryScore, List.map_cons, List.map_nil, hid, hlabel, ha1, ha2, ha3]
  norm_num

theorem bestEntry_temperature :
    bestEntry "temperature" seedVariables =
      (some ⟨"temperature_2m", "2 m air temperature", some "°C",
       [.historical, .current, .forecast], ["temperature", "air temp", "t2m"]⟩, 1) := by
  have h2 : entryScore "temperature"
      ⟨"relative_humidity_2m", "2 m relative humidity", some "%",
       [.historical, .current, .forecast], ["humidity", "rh"]⟩ = 0 :=
    entryScore_eq_zero _ _ (by decide)
  have h3 : entryScore "temperature"
      ⟨"windspeed_10m", "10 m wind speed", some "m/s",
       [.historical, .current, .forecast], ["wind", "winds", "wind speed"]⟩ = 0 :=
    entryScore_eq_zero _ _ (by decide)
  have h4 : entryScore "temperature"
      ⟨"windgusts_10m", "10 m wind gusts", some "m/s",
       [.current, .forecast], ["gust", "gusts", "wind gusts"]⟩ = 0 :=
    entryScore_eq_zero _ _ (by decide)
  have h5 : entryScore "temperature"
      ⟨"cloudcover", "Total cloud cover", some "%",
       [.historical, .current, .forecast], ["clouds", "cloud cover"]⟩ = 0 :=
    entryScore_eq_zero _ _ (by decide)
  have h6 : entryScore "temperature"
      ⟨"precipitation", "Precipitation", some "mm",
       [.historical, .current, .forecast], ["rain", "rainfall", "precip"]⟩ = 0 :=
    entryScore_eq_zero _ _ (by decide)
  unfold bestEntry seedVariables
  simp only [List.foldl_cons, List.foldl_nil, entryScore_temperature, h2, h3, h4, h5, h6]
  norm_num

theorem bestEntry_snd_ub (req : String) (vars : List CapabilityVariable) :
    ∀ acc : Option CapabilityVariable × ℚ,
      acc.2 ≤ (vars.foldl (fun acc v =>
        let s := entryScore req v
        if acc.2 < s then (some v, s) else acc) acc).2 ∧
      ∀ v ∈ vars, entryScore req v ≤ (vars.foldl (fun acc v =>
        let s := entryScore req v
        if acc.2 < s then (some v, s) else acc) acc).2 := by
  induction vars with
  | nil => exact fun acc => ⟨le_refl _, by simp⟩
  | cons v l ih =>
    intro acc
    simp only [List.foldl_cons]
    set acc1 := (let s := entryScore req v
      if acc.2 < s then (some v, s) else acc) with hacc1
    have hstep : acc.2 ≤ acc1.2 ∧ entryScore req v ≤ acc1.2 := by
      rw [hacc1]
      by_cases hc : acc.2 < entryScore req v
      · simp only [if_pos hc]
        exact ⟨le_of_lt hc, le_refl _⟩
      · simp only [if_neg hc]
        exact ⟨le_refl _, le_of_not_lt hc⟩
    refine ⟨le_trans hstep.1 (ih acc1).1, ?_⟩
    intro w hw
    rcases List.mem_cons.mp hw with rfl | hwl
    · exact le_trans hstep.2 (ih acc1).1
    · exact (ih acc1).2 w hwl

theorem planItem_resolved (mode : TimeMode) (vars : List CapabilityVariable)
    (req : String) (v : CapabilityVariable) (s : ℚ)
    (hbe : bestEntry req vars = (some v, s)) (hs : 33/100 ≤ s) :
    planItem mode vars req = .resolved req v.id v.unit "open-meteo" mode := by
  unfold planItem
  rw [hbe]
  simp only [if_pos hs]

theorem planItem_unresolved (mode : TimeMode) (vars : List CapabilityVariable)
    (req : String) (b : Option CapabilityVariable) (s : ℚ)
    (hbe : bestEntry req vars = (b, s)) (h : b = none ∨ s < 33/100) :
    planItem mode vars req = .unresolved req mode fallbackCandidates := by
  unfold planItem
  rw [hbe]
  rcases h with rfl | hs
  · rfl
  · cases b with
    | none => rfl
    | some v => simp only [if_neg (not_le.mpr hs)]

theorem chosenMode_of_hint (vs : List String) (tm : TimeMode)
    (h : ∃ hint ∈ CLIMATE_HINTS, containsSub (joinedLower vs) hint = true) :
    chosenMode vs tm = .historical := by
  have hwc : wantsClimate vs = true := by
    rw [wantsClimate, List.any_eq_true]
    exact h
  simp [chosenMode, hwc]

theorem get?_flatMap_uniform {α β : Type} (g : β → List α) (L : ℕ)
    (hL : ∀ x, (g x).length = L) :
    ∀ (xs : List β) (i j : ℕ) (x : β), j < L → xs.get? i = some x →
      (xs.flatMap g).get? (i * L + j) = (g x).get? j := by
  intro xs
  induction xs with
  | nil => intro i j x hj h; simp at h
  | cons y ys ih =>
    intro i j x hj h
    cases i with
    | zero =>
      rw [List.get?_cons_zero, Option.some_inj] at h
      subst h
      rw [List.flatMap_cons, Nat.zero_mul, Nat.zero_add]
      exact List.get?_append (by rw [hL]; exact hj)
    | succ i =>
      rw [List.get?_cons_succ] at h
      rw [List.flatMap_cons]
      have harith : (i + 1) * L + j = (g y).length + (i * L + j) := by
        rw [hL]
        ring
      rw [harith, List.get?_append_right (Nat.le_add_right _ _), Nat.add_sub_cancel_left]
      exact ih i j x hj h

theorem gridStep_pos (b : BBox) : 0 < gridStep b := by
  simp only [gridStep]
  split_ifs <;> norm_num

theorem axisCount_le (lo hi step : ℚ) (hstep : 0 < step) (hle : lo ≤ hi) :
    ∀ i : ℕ, i < axisCount lo hi step → lo + i * step ≤ hi := by
  intro i hi'
  unfold axisCount at hi'
  rw [if_neg (not_lt.mpr hle)] at hi'
  have hfl : 0 ≤ ⌊(hi - lo) / step⌋ :=
    Int.floor_nonneg.mpr (div_nonneg (by linarith) (le_of_lt hstep))
  have hcast : (i : ℤ) ≤ ⌊(hi - lo) / step⌋ := by omega
  have hle2 : (i : ℚ) ≤ (hi - lo) / step :=
    le_trans (by exact_mod_cast hcast) (Int.floor_le _)
  have := (le_div_iff hstep).mp hle2
  linarith

theorem daysInMonth_ne_two (y y' : ℤ) (m : ℕ) (hm : m ≠ 2) :
    daysInMonth y m = daysInMonth y' m := by
  unfold daysInMonth
  rw [if_neg hm, if_neg hm]

theorem computeHistoricalWindow_start (years : ℕ) (today : CivilDate)
    (hv : ValidDate today) :
    (computeHistoricalWindow years today).start =
      (if today.m = 2 ∧ today.d = 29 ∧ isLeap (today.y - years) = false
       then ⟨today.y - years, 3, 1⟩
       else ⟨today.y - years, today.m, today.d⟩ : CivilDate) := by
  obtain ⟨hm1, hm12, hd1, hdle⟩ := hv
  show setUTCFullYear (today.y - years) today = _
  unfold setUTCFullYear
  by_cases hc : today.m = 2 ∧ today.d = 29 ∧ isLeap (today.y - (years : ℤ)) = false
  · obtain ⟨h2, h29, hnl⟩ := hc
    conv_rhs => rw [if_pos ⟨h2, h29, hnl⟩]
    rw [if_neg (by simp [h2, h29, daysInMonth, hnl])]
    simp [h2, h29, daysInMonth, hnl]
  · conv_rhs => rw [if_neg hc]
    push_neg at hc
    by_cases h2 : today.m = 2
    · by_cases h29 : today.d = 29
      · have hl : isLeap (today.y - years) = true := by
          have := hc h2 h29
          simpa using this
        rw [if_pos (by simp [h2, h29, daysInMonth, hl])]
      · have hd28 : today.d ≤ 28 := by
          rw [h2] at hdle
          unfold daysInMonth at hdle
          by_cases hly : isLeap today.y <;> simp [hly] at hdle <;> omega
        rw [if_pos (by
          unfold daysInMonth
          rw [if_pos h2]
          by_cases hly : isLeap (today.y - (years : ℤ)) <;> simp [hly] <;> omega)]
    · rw [if_pos (by rw [← daysInMonth_ne_two today.y _ _ h2]; exact hdle)]

/-! ## Claim theorems -/

/-- Claim C1: the diurnal block of climateBlocks is claimed to bucket each
finite value by the hour of timesUTC[t] shifted by the per-point UTC offset
only, with no host-timezone contribution.  The code instead reads the hour
with Date.prototype.getHours, which applies the host UTC offset on top: with
a host offset of +3600 s, the value at the UTC epoch instant with per-point
offset 0 lands in bucket 1, while the per-point local hour of that instant
is 0 (the bucket the same run on a UTC host uses).  This contradicts the
source comment announcing LOCAL hour via per-point utc_offset_seconds. -/
theorem diurnal_bucket_uses_host_offset :
    byHourLocal [0] [[JVal.num 5]] [0] 3600 =
      (List.replicate 24 ([] : List ℚ)).set 1 [5] ∧
    byHourLocal [0] [[JVal.num 5]] [0] 0 =
      (List.replicate 24 ([] : List ℚ)).set 0 [5] ∧
    hourOfMs (0 + 0 * 1000) = 0 := by
  decide

/-- Claim C2 counterexample: the quantile primitive applied to the empty
list returns NaN, not null, falsifying the sentence that promises null. -/
theorem quantile_empty_nan_counterexample :
    quantile [] (1/2) = JRes.nan ∧ quantile [] (1/2) ≠ JRes.null := by
  exact ⟨rfl, by decide⟩

/-- Claim C2 (amended): for p in [0,1] the quantile primitive keeps the
finite values, sorts ascending, and linearly interpolates between the floor
and ceiling order statistics at index (n-1)p, exactly as the
spec-modelled specQuantile does, except that the empty outcome is NaN
rather than null; quantile([1,2,3,4], 0.5) = 2.5 and quantile([], p) is NaN
for every p. -/
theorem quantile_spec_amended :
    (∀ (arr : List JVal) (p : ℚ), 0 ≤ p → p ≤ 1 →
      quantile arr p = (specQuantile arr p).elim JRes.nan JRes.num) ∧
    quantile [JVal.num 1, .num 2, .num 3, .num 4] (1/2) = .num (5/2) ∧
    (∀ p : ℚ, quantile [] p = .nan ∧ specQuantile [] p = none) := by
  refine ⟨quantile_eq_specQuantile, ?_, fun p => ⟨rfl, rfl⟩⟩
  rw [quantile_eq_specQuantile _ _ (by norm_num) (by norm_num)]
  have hf : sortAsc (finiteVals [JVal.num 1, .num 2, .num 3, .num 4]) =
      [(1:ℚ), 2, 3, 4] := by decide
  simp only [specQuantile, hf]
  have hc : ⌈(3 / 2 : ℚ)⌉ = 2 := by
    rw [Int.ceil_eq_iff]
    norm_num
  norm_num [hc, show Int.toNat 2 = 2 from rfl]

/-- Claim C2 witness: the refinement instantiated at a concrete input. -/
theorem quantile_spec_amended_witness :
    (0 : ℚ) ≤ 1/3 ∧ (1/3 : ℚ) ≤ 1 ∧
    quantile [JVal.num 10] (1/3) =
      (specQuantile [JVal.num 10] (1/3)).elim JRes.nan JRes.num :=
  ⟨by norm_num, by norm_num,
   quantile_spec_amended.1 [JVal.num 10] (1/3) (by norm_num) (by norm_num)⟩

/-- Claim C3 counterexample: with the seed loaded at instant 0, a stale
snapshot whose last_updated is 5, and a failing probe, describeCapabilities
returns the seed (timestamp 0), not the prior snapshot (timestamp 5). -/
theorem describeCapabilities_failure_counterexample :
    (describeCapabilities 0 (some (⟨5, seedVariables⟩, 10)) 20 false).1 = seed 0 ∧
    (describeCapabilities 0 (some (⟨5, seedVariables⟩, 10)) 20 false).1 ≠
      ⟨5, seedVariables⟩ := by
  decide

/-- Claim C3 (amended): on a fresh snapshot describeCapabilities returns it
unchanged; on a stale or cold snapshot it never raises (the embedding is a
total function because refreshFromOpenMeteo swallows every probe failure):
a successful probe yields the seed catalog restamped with the current
instant (an updated last-refresh timestamp), while a failed probe yields
the seed descriptor itself, whose timestamp is the module-load instant, not
the prior snapshot; in both cases the variable catalog equals the seed
catalog and the result is re-cached for a further 24 h. -/
theorem describeCapabilities_amended (loadTime now : ℤ)
    (st : Option (Capabilities × ℤ)) (probeOk : Bool) :
    (∀ mc, st = some mc → now < mc.2 →
        describeCapabilities loadTime st now probeOk = (mc.1, st)) ∧
    ((st = none ∨ ∀ mc, st = some mc → mc.2 ≤ now) →
      (describeCapabilities loadTime st now probeOk).1 =
        (if probeOk then { seed loadTime with last_updated := now }
         else seed loadTime) ∧
      (describeCapabilities loadTime st now probeOk).2 =
        some ((describeCapabilities loadTime st now probeOk).1, now + DAY) ∧
      (describeCapabilities loadTime st now probeOk).1.vars = seedVariables) := by
  constructor
  · intro mc hmc hlt
    subst hmc
    simp [describeCapabilities, hlt]
  · intro hstale
    cases st with
    | none =>
      cases probeOk <;> simp [describeCapabilities, refreshFromOpenMeteo, seed]
    | some mc =>
      have hle : ¬(now < mc.2) := by
        apply not_lt.mpr
        rcases hstale with h | h
        · exact absurd h (by simp)
        · exact h mc rfl
      cases probeOk <;>
        simp [describeCapabilities, refreshFromOpenMeteo, seed, hle]

/-- Claim C3 witness: a stale snapshot with a successful probe returns the
seed catalog restamped to the current instant. -/
theorem describeCapabilities_amended_witness :
    (describeCapabilities 0 (some (⟨5, seedVariables⟩, 10)) 20 true).1 =
      { seed 0 with last_updated := 20 } := by
  have h := (describeCapabilities_amended 0 20 (some (⟨5, seedVariables⟩, 10)) true).2
    (Or.inr (by
      rintro mc hmc
      injection hmc with h2
      rw [← h2]
      norm_num))
  simpa using h.1

/-- Claim C4 counterexample: on the degenerate bounding box
[0.0007, 0, 0.0007, 0], the single grid point is rounded to 3 decimals as
0.001, which lies outside [minLat, maxLat] = [0.0007, 0.0007]; so the
sentence that every returned point lies within the box is false. -/
theorem adaptiveGrid_out_of_bbox_counterexample :
    adaptiveGrid ⟨7/10000, 0, 7/10000, 0⟩ = [((1 : ℚ)/1000, 0)] ∧
    ¬((1 : ℚ)/1000 ≤ 7/10000) := by
  constructor
  · have hstep : gridStep ⟨7/10000, 0, 7/10000, 0⟩ = 1/2 := by
      simp only [gridStep]
      norm_num
    have hlat : axisCount (7/10000) (7/10000) (1/2) = 1 := by
      simp only [axisCount]
      norm_num
    have hlon : axisCount (0 : ℚ) 0 (1/2) = 1 := by
      simp only [axisCount]
      norm_num
    simp only [adaptiveGrid, hstep, hlat, hlon,
      show List.range 1 = [0] from rfl, List.flatMap_cons, List.flatMap_nil,
      List.map_cons, List.map_nil, List.append_nil, List.take_succ_cons,
      List.take_nil, Nat.cast_zero, toFixed3]
    norm_num
  · norm_num

/-- Claim C4 (amended): for any bounding box with south <= north and
west <= east, adaptiveGrid returns at most 150 points; every returned point
is the 3-decimal rounding of a grid coordinate pair that lies within
[minLat, maxLat] x [minLon, maxLon] (the rounding itself may overshoot a
bound by under 0.0005, as the counterexample shows); and the points appear
in row-major generation order: the element at index i*nLon + j (when below
the 150 cut) is the rounded (minLat + i*step, minLon + j*step). -/
theorem adaptiveGrid_amended (b : BBox) (hlat : b.minLat ≤ b.maxLat)
    (hlon : b.minLon ≤ b.maxLon) :
    (adaptiveGrid b).length ≤ 150 ∧
    (∀ pt ∈ adaptiveGrid b, ∃ la lo : ℚ,
      pt = (toFixed3 la, toFixed3 lo) ∧
      b.minLat ≤ la ∧ la ≤ b.maxLat ∧ b.minLon ≤ lo ∧ lo ≤ b.maxLon) ∧
    (∀ i j : ℕ, i < axisCount b.minLat b.maxLat (gridStep b) →
      j < axisCount b.minLon b.maxLon (gridStep b) →
      i * axisCount b.minLon b.maxLon (gridStep b) + j < 150 →
      (adaptiveGrid b).get? (i * axisCount b.minLon b.maxLon (gridStep b) + j) =
        some (toFixed3 (b.minLat + i * gridStep b),
          toFixed3 (b.minLon + j * gridStep b))) := by
  have hstep := gridStep_pos b
  refine ⟨?_, ?_, ?_⟩
  · simp only [adaptiveGrid, List.length_take]
    exact min_le_left _ _
  · intro pt hpt
    simp only [adaptiveGrid] at hpt
    have hpt' := List.mem_of_mem_take hpt
    rw [List.mem_flatMap] at hpt'
    obtain ⟨i, hi, hmem⟩ := hpt'
    rw [List.mem_map] at hmem
    obtain ⟨j, hj, rfl⟩ := hmem
    rw [List.mem_range] at hi hj
    refine ⟨b.minLat + i * gridStep b, b.minLon + j * gridStep b, rfl, ?_, ?_, ?_, ?_⟩
    · nlinarith [mul_nonneg (Nat.cast_nonneg (α := ℚ) i) (le_of_lt hstep)]
    · exact axisCount_le _ _ _ hstep hlat i hi
    · nlinarith [mul_nonneg (Nat.cast_nonneg (α := ℚ) j) (le_of_lt hstep)]
    · exact axisCount_le _ _ _ hstep hlon j hj
  · intro i j hi hj hlt
    simp only [adaptiveGrid]
    rw [List.get?_take hlt]
    rw [get?_flatMap_uniform _ (axisCount b.minLon b.maxLon (gridStep b))
      (fun x => by simp) _ i j i (by exact hj) (by rw [List.get?_range hi])]
    rw [List.get?_map, List.get?_range hj]
    rfl

/-- Claim C4 witness: the amended theorem instantiated on the unit box. -/
theorem adaptiveGrid_amended_witness :
    ((0 : ℚ) ≤ 1) ∧ (adaptiveGrid ⟨0, 0, 1, 1⟩).length ≤ 150 :=
  ⟨by norm_num, (adaptiveGrid_amended ⟨0, 0, 1, 1⟩ (by norm_num) (by norm_num)).1⟩

/-- Claim C5 counterexample: when today is Feb 29 of a leap year and the
target year is not leap, the start date normalises to Mar 1, so it does not
have the same month and day as today. -/
theorem historicalWindow_leap_day_counterexample :
    ValidDate ⟨2024, 2, 29⟩ ∧
    (computeHistoricalWindow 1 ⟨2024, 2, 29⟩).start = ⟨2023, 3, 1⟩ ∧
    (computeHistoricalWindow 1 ⟨2024, 2, 29⟩).start ≠ ⟨2023, 2, 29⟩ := by
  decide

/-- Claim C5 (amended): for any years in [1,50] and any valid UTC date
today, the derived window ends at today, records years, and starts at the
date with the year field reduced by years and the month and day unchanged,
except that Feb 29 mapped into a non-leap year normalises to Mar 1; years
itself is the explicit historical_years option when given, else 10 when
historical_depth is deep, else 1; the window is attached to the plan meta
exactly when the effective time mode is historical. -/
theorem historicalWindow_amended :
    (∀ (years : ℕ) (today : CivilDate), 1 ≤ years → years ≤ 50 →
      ValidDate today →
      (computeHistoricalWindow years today).stop = today ∧
      (computeHistoricalWindow years today).years = years ∧
      (computeHistoricalWindow years today).start =
        (if today.m = 2 ∧ today.d = 29 ∧ isLeap (today.y - years) = false
         then ⟨today.y - years, 3, 1⟩
         else ⟨today.y - years, today.m, today.d⟩ : CivilDate)) ∧
    (∀ d n, yearsOf (some ⟨d, some n⟩) = n) ∧
    yearsOf (some ⟨some .deep, none⟩) = 10 ∧
    yearsOf (some ⟨some .normalDepth, none⟩) = 1 ∧
    yearsOf (some ⟨none, none⟩) = 1 ∧
    yearsOf none = 1 ∧
    (∀ opts today, planMeta .historical opts today =
      some (computeHistoricalWindow (yearsOf opts) today)) ∧
    (∀ mode opts today, mode ≠ .historical → planMeta mode opts today = none) := by
  refine ⟨?_, fun d n => rfl, rfl, rfl, rfl, rfl, fun opts today => rfl, ?_⟩
  · intro years today h1 h50 hv
    exact ⟨rfl, rfl, computeHistoricalWindow_start years today hv⟩
  · intro mode opts today hmode
    simp [planMeta, hmode]

/-- Claim C5 witness: the window derived on 2026-10-12 with years = 10. -/
theorem historicalWindow_amended_witness :
    (1 ≤ 10) ∧ (10 ≤ 50) ∧ ValidDate ⟨2026, 10, 12⟩ ∧
    (computeHistoricalWindow 10 ⟨2026, 10, 12⟩).start = ⟨2016, 10, 12⟩ := by
  refine ⟨by norm_num, by norm_num, by decide, ?_⟩
  have h := (historicalWindow_amended.1 10 ⟨2026, 10, 12⟩ (by norm_num) (by norm_num)
    (by decide)).2.2
  rw [h]
  decide

/-- Claim C6: starting from a cold cache, a fetch at t1 issues an upstream
call and stores the body; a second fetch of the same url at t2 within the
TTL (t2 <= t1 + ttl) is a live hit that returns the first body with no
upstream call; a third fetch at t3 after expiry (t1 + ttl < t3) treats the
entry as absent and issues a second upstream call.  The three outcomes are
given in full, so exactly one upstream call serves the first two fetches
and the third triggers the second. -/
theorem cache_ttl_single_upstream {α : Type} (url : String) (ttl t1 t2 t3 : ℤ)
    (v1 v2 v3 : α) (rl : RateLimiter)
    (hlive : t2 ≤ t1 + ttl) (hexp : t1 + ttl < t3) :
    fetchJSONWithCache url ttl false "default" none rl t1 200 v1 =
      ⟨.ok (some v1), some ⟨[("json:" ++ url, ⟨v1, t1 + ttl⟩)], ttl⟩, rl, t1, true⟩ ∧
    fetchJSONWithCache url ttl false "default"
        (some ⟨[("json:" ++ url, ⟨v1, t1 + ttl⟩)], ttl⟩) rl t2 200 v2 =
      ⟨.ok (some v1), some ⟨[("json:" ++ url, ⟨v1, t1 + ttl⟩)], ttl⟩, rl, t2, false⟩ ∧
    fetchJSONWithCache url ttl false "default"
        (some ⟨[("json:" ++ url, ⟨v1, t1 + ttl⟩)], ttl⟩) rl t3 200 v3 =
      ⟨.ok (some v3), some ⟨[("json:" ++ url, ⟨v3, t3 + ttl⟩)], ttl⟩, rl, t3, true⟩ := by
  have hfind : List.find? (fun en => en.1 = "json:" ++ url)
      [("json:" ++ url, (⟨v1, t1 + ttl⟩ : CacheEntry α))] =
      some ("json:" ++ url, ⟨v1, t1 + ttl⟩) := by
    rw [List.find?_cons_of_pos _ (by simp)]
  refine ⟨rfl, ?_, ?_⟩
  · simp only [fetchJSONWithCache, mcHas, mcGet, hfind, if_neg (not_lt.mpr hlive)]
  · simp only [fetchJSONWithCache, mcHas, mcGet, mcSet, mcErase, hfind, if_pos hexp]
    norm_num

/-- Claim C6 witness: the scenario at concrete instants 0, 1000, 70000 with
a 60 s TTL. -/
theorem cache_ttl_single_upstream_witness :
    ((1000 : ℤ) ≤ 0 + 60000) ∧ ((0 : ℤ) + 60000 < 70000) ∧
    fetchJSONWithCache "u" 60000 false "default"
        (some ⟨[("json:u", ⟨1, 0 + 60000⟩)], 60000⟩) ⟨1000, []⟩ 1000 200 (2 : ℕ) =
      ⟨.ok (some 1), some ⟨[("json:u", ⟨1, 0 + 60000⟩)], 60000⟩, ⟨1000, []⟩, 1000, false⟩ :=
  ⟨by norm_num, by norm_num,
   (cache_ttl_single_upstream "u" 60000 0 1000 70000 1 2 3 ⟨1000, []⟩
     (by norm_num) (by norm_num)).2.1⟩

/-- Claim C7: the planner scores a phrase against id, label and every alias
by token-overlap ratio; the tracked best score bounds every entry score
from above; the best entry is accepted exactly when its score reaches 0.33,
otherwise the item is unresolved and carries the fixed five-entry fallback
list (meteostat/station-met, climateserv/precip-land-only,
nasa-power/radiation, openaq/air-quality, nsidc/sea-ice, in that order); a
phrase equal to a catalog alias scores 1.0 (for any phrase with at least
one token); against the seed catalog, "temperature" resolves to
temperature_2m and "xyzzy" is unresolved with the fallback list. -/
theorem planner_scoring_resolution :
    (∀ s : String, tokenSet s ≠ [] → score s s = 1) ∧
    (∀ (req : String) (vars : List CapabilityVariable), ∀ v ∈ vars,
      entryScore req v ≤ (bestEntry req vars).2) ∧
    (∀ (mode : TimeMode) (vars : List CapabilityVariable) (req : String)
      (v : CapabilityVariable) (s : ℚ),
      bestEntry req vars = (some v, s) → 33/100 ≤ s →
      planItem mode vars req = .resolved req v.id v.unit "open-meteo" mode) ∧
    (∀ (mode : TimeMode) (vars : List CapabilityVariable) (req : String)
      (b : Option CapabilityVariable) (s : ℚ),
      bestEntry req vars = (b, s) → (b = none ∨ s < 33/100) →
      planItem mode vars req = .unresolved req mode fallbackCandidates) ∧
    (∀ mode, planItem mode seedVariables "temperature" =
      .resolved "temperature" "temperature_2m" (some "°C") "open-meteo" mode) ∧
    (∀ mode, planItem mode seedVariables "xyzzy" =
      .unresolved "xyzzy" mode fallbackCandidates) := by
  refine ⟨score_self, ?_, planItem_resolved, planItem_unresolved, ?_, ?_⟩
  · intro req vars v hv
    exact (bestEntry_snd_ub req vars (none, 0)).2 v hv
  · intro mode
    exact planItem_resolved mode seedVariables "temperature" _ _
      bestEntry_temperature (by norm_num)
  · intro mode
    exact planItem_unresolved mode seedVariables "xyzzy" none 0
      (bestEntry_all_zero _ _ (by decide)) (Or.inl rfl)

/-- Claim C7 witness: the identical-phrase conjunct instantiated at
"temperature", and the concrete resolutions. -/
theorem planner_scoring_resolution_witness :
    tokenSet "temperature" ≠ [] ∧ score "temperature" "temperature" = 1 ∧
    planItem .forecast seedVariables "temperature" =
      .resolved "temperature" "temperature_2m" (some "°C") "open-meteo" .forecast :=
  ⟨by decide, planner_scoring_resolution.1 "temperature" (by decide),
   planner_scoring_resolution.2.2.2.2.1 .forecast⟩

/-- Claim C8: when the lower-cased space-joined concatenation of the
requested phrases contains one of the literal substrings typical,
climatology, normal, long-term, the effective time mode is historical
regardless of the caller-requested mode; in particular
variables = ["typical rainfall"] with requested mode forecast yields
historical. -/
theorem climate_hint_forces_historical :
    (∀ (vs : List String) (tm : TimeMode),
      (∃ hint ∈ CLIMATE_HINTS, containsSub (joinedLower vs) hint = true) →
      chosenMode vs tm = .historical) ∧
    chosenMode ["typical rainfall"] .forecast = .historical := by
  exact ⟨chosenMode_of_hint, by decide⟩

/-- Claim C8 witness: the override applied to a different concrete
request. -/
theorem climate_hint_forces_historical_witness :
    chosenMode ["rain climatology"] .current = .historical :=
  climate_hint_forces_historical.1 ["rain climatology"] .current
    ⟨"climatology".data, by decide, by decide⟩

/-- Claim C9: an input whose finite values are exactly [v] yields v for
every fraction p in [0,1]: the singleton sorts to itself, the index
(n-1)p is 0, and the out-of-range upper order statistic is absorbed by the
interpolation-difference guard, so no NaN arises. -/
theorem quantile_singleton_value (arr : List JVal) (v : ℚ) (p : ℚ)
    (hp0 : 0 ≤ p) (hp1 : p ≤ 1) (hfin : finiteVals arr = [v]) :
    quantile arr p = .num v := by
  rw [quantile_eq_specQuantile arr p hp0 hp1]
  have hs : sortAsc (finiteVals arr) = [v] := by rw [hfin]; rfl
  simp only [specQuantile, hs]
  norm_num

/-- Claim C9 witness: a list holding one NaN and one finite value. -/
theorem quantile_singleton_value_witness :
    (0 : ℚ) ≤ 1/2 ∧ (1/2 : ℚ) ≤ 1 ∧ finiteVals [JVal.nan, JVal.num 7] = [7] ∧
    quantile [JVal.nan, JVal.num 7] (1/2) = .num 7 :=
  ⟨by norm_num, by norm_num, by decide,
   quantile_singleton_value [JVal.nan, JVal.num 7] 7 (1/2)
     (by norm_num) (by norm_num) (by decide)⟩

/-- Claim C10: a live cache hit in fetchJSONWithCache returns the cached
value immediately: the rate limiter state is returned unchanged (no
last-call update for any throttle key), the clock does not advance (no
suspension), and no upstream call is issued, whatever the supplied upstream
response would have been. -/
theorem cache_hit_bypasses_limiter {α : Type} (url rlKey : String)
    (ttlMs : ℤ) (c : MemoryCache α) (rl : RateLimiter) (now : ℤ)
    (status : ℕ) (body v : α) (e : ℤ)
    (hfind : c.store.find? (fun en => en.1 = "json:" ++ url) =
      some ("json:" ++ url, ⟨v, e⟩))
    (hlive : now ≤ e) :
    fetchJSONWithCache url ttlMs true rlKey (some c) rl now status body =
      ⟨.ok (some v), some c, rl, now, false⟩ := by
  simp only [fetchJSONWithCache, mcHas, mcGet, hfind, if_neg (not_lt.mpr hlive)]

/-- Claim C10 witness: a concrete live hit leaves a nonempty limiter map
untouched even though the upstream response would have been an error. -/
theorem cache_hit_bypasses_limiter_witness :
    (50 : ℤ) ≤ 100 ∧
    fetchJSONWithCache "u" 60000 true "k"
        (some ⟨[("json:u", ⟨(42 : ℕ), 100⟩)], 60000⟩) ⟨1000, [("k", 7)]⟩ 50 500 0 =
      ⟨.ok (some 42), some ⟨[("json:u", ⟨42, 100⟩)], 60000⟩, ⟨1000, [("k", 7)]⟩, 50, false⟩ :=
  ⟨by norm_num,
   cache_hit_bypasses_limiter "u" "k" 60000 ⟨[("json:u", ⟨42, 100⟩)], 60000⟩
     ⟨1000, [("k", 7)]⟩ 50 500 0 42 100 (by decide) (by norm_num)⟩

end Meteo
